import Mathlib

/-!
Verification of the repository layer of a Go document store with vector
embeddings (`repositories/repository.go`).

Shallow embedding conventions:
* Go strings are modelled as `List Char`; concrete string literals appear as
  `"...".data`.
* Go `float32`/`float64` values are modelled as exact rationals (`ℚ`).  The
  `fmt.Sprintf "%f"` formatting used by `vectorToString` is modelled as
  rounding to the nearest multiple of `10⁻⁶` and printing with exactly six
  fractional digits; `strconv.ParseFloat` is modelled as an exact decimal
  parser over the same grammar (sign, digits, optional point, optional
  exponent).  The model omits the `inf`/`nan`/hex spellings and digit
  underscores accepted by Go, and it does not track the negative-zero sign or
  binary rounding of `float32`; none of the verified claims depend on those.
  Ties (`… .0000005`) round half up here while Go rounds ties to even; a tie
  requires the value `v·10⁶` to be an integer plus one half, which is never a
  dyadic rational, so no binary-float input can reach a tie.
* Rationals are constructed with `Rat.divInt`/`mkRat` rather than `+ * /` so
  that concrete runs reduce inside `decide`.
* External effects (HTTP call to Ollama, SQL execution) are passed in as
  explicit data: `CreateDocument` receives the outcome of the embedding call
  and of the insert, `SearchSimilarDocuments` receives the database as a
  function from the encoded query to rows.  The SQL text of the search query
  (`ORDER BY embedding <=> $1 LIMIT $2`, `1 - (embedding <=> $1) as
  similarity`) is modelled by `runSearchQuery`.
-/

/-! ### Characters and digit strings -/

/-- Numeric value of a digit character (model helper). -/
def digitVal (c : Char) : Nat := c.toNat - 48

/-- Value of a digit string read left to right, most significant first. -/
def digitsVal (l : List Char) : Nat := l.foldl (fun a c => 10 * a + digitVal c) 0

/-- Decimal digits of `n`, most significant first, via explicit fuel so that
the kernel can evaluate it. -/
def toDigitsAux : Nat → Nat → List Char → List Char
  | 0, _, acc => acc
  | fuel + 1, n, acc =>
      if n < 10 then Nat.digitChar n :: acc
      else toDigitsAux fuel (n / 10) (Nat.digitChar (n % 10) :: acc)

/-- Decimal representation of a natural number, no leading zeros
(except `toDigits 0 = "0"`). -/
def toDigits (n : Nat) : List Char := toDigitsAux (n + 1) n []

theorem digitsVal_from (l : List Char) :
    ∀ a : Nat, List.foldl (fun a c => 10 * a + digitVal c) a l
      = a * 10 ^ l.length + digitsVal l := by
  induction l with
  | nil => intro a; simp [digitsVal]
  | cons d t ih =>
      intro a
      show List.foldl _ _ _ = _
      rw [List.foldl_cons, ih]
      have h0 : digitsVal (d :: t) = digitVal d * 10 ^ t.length + digitsVal t := by
        show List.foldl _ _ _ = _
        rw [List.foldl_cons, ih]
        ring_nf
      rw [h0]
      simp [List.length_cons]
      ring_nf

theorem digitsVal_append (xs ys : List Char) :
    digitsVal (xs ++ ys) = digitsVal xs * 10 ^ ys.length + digitsVal ys := by
  show List.foldl _ _ _ = _
  rw [List.foldl_append, digitsVal_from ys (List.foldl _ 0 xs)]
  rfl

theorem digitVal_digitChar (n : Nat) (h : n < 10) : digitVal (Nat.digitChar n) = n := by
  interval_cases n <;> decide

theorem isDigit_digitChar (n : Nat) (h : n < 10) : (Nat.digitChar n).isDigit = true := by
  interval_cases n <;> decide

theorem toDigitsAux_spec (fuel : Nat) :
    ∀ (n : Nat) (acc : List Char), n < 10 ^ fuel → 1 ≤ fuel →
      ∃ ds : List Char, toDigitsAux fuel n acc = ds ++ acc ∧ ds ≠ [] ∧
        (∀ c ∈ ds, c.isDigit = true) ∧ digitsVal ds = n ∧ ds.length ≤ fuel := by
  induction fuel with
  | zero => intro n acc _ h1; omega
  | succ f ih =>
      intro n acc hlt _
      by_cases h10 : n < 10
      · refine ⟨[Nat.digitChar n], by simp [toDigitsAux, h10], by simp, ?_, ?_, by simp⟩
        · intro c hc
          simp at hc
          subst hc
          exact isDigit_digitChar n h10
        · show digitsVal [Nat.digitChar n] = n
          simp [digitsVal, digitVal_digitChar n h10]
      · have hf1 : 1 ≤ f := by
          by_contra hf
          have hf0 : f = 0 := by omega
          subst hf0
          simp at hlt
          omega
        have hdiv : n / 10 < 10 ^ f := by
          have : n < 10 ^ f * 10 := by
            have := pow_succ 10 f
            omega
          omega
        obtain ⟨ds, heq, hne, hdig, hval, hlen⟩ :=
          ih (n / 10) (Nat.digitChar (n % 10) :: acc) hdiv hf1
        refine ⟨ds ++ [Nat.digitChar (n % 10)], ?_, by simp, ?_, ?_, ?_⟩
        · simp [toDigitsAux, h10, heq]
        · intro c hc
          simp at hc
          rcases hc with hc | hc
          · exact hdig c hc
          · subst hc
            exact isDigit_digitChar _ (Nat.mod_lt n (by omega))
        · rw [digitsVal_append, hval]
          show n / 10 * 10 ^ ([] : List Char).length.succ + digitsVal [Nat.digitChar (n % 10)] = n
          have hv : digitsVal [Nat.digitChar (n % 10)] = n % 10 := by
            show List.foldl _ _ _ = _
            simp [List.foldl, digitVal_digitChar _ (Nat.mod_lt n (by omega))]
          rw [hv]
          simp
          omega
        · simp
          omega

theorem toDigitsAux_fuel_irrel (f1 : Nat) :
    ∀ (f2 n : Nat) (acc : List Char), n < 10 ^ f1 → n < 10 ^ f2 → 1 ≤ f1 → 1 ≤ f2 →
      toDigitsAux f1 n acc = toDigitsAux f2 n acc := by
  induction f1 with
  | zero => intro f2 n acc _ _ h1; omega
  | succ g ih =>
      intro f2 n acc hn1 hn2 _ hf2
      obtain ⟨k, rfl⟩ : ∃ k, f2 = k + 1 := ⟨f2 - 1, by omega⟩
      by_cases h10 : n < 10
      · simp [toDigitsAux, h10]
      · have hg1 : 1 ≤ g := by
          by_contra hg
          have : g = 0 := by omega
          subst this
          simp at hn1
          omega
        have hk1 : 1 ≤ k := by
          by_contra hk
          have : k = 0 := by omega
          subst this
          simp at hn2
          omega
        have hd1 : n / 10 < 10 ^ g := by
          have := pow_succ 10 g
          omega
        have hd2 : n / 10 < 10 ^ k := by
          have := pow_succ 10 k
          omega
        simp only [toDigitsAux, if_neg h10]
        exact ih k (n / 10) _ hd1 hd2 hg1 hk1

theorem toDigits_spec (k n : Nat) (hk : 1 ≤ k) (h : n < 10 ^ k) :
    ∃ ds : List Char, toDigits n = ds ∧ ds ≠ [] ∧ (∀ c ∈ ds, c.isDigit = true) ∧
      digitsVal ds = n ∧ ds.length ≤ k := by
  have hself : n < 10 ^ (n + 1) := by
    calc n < 2 ^ n := Nat.lt_two_pow n
    _ ≤ 10 ^ n := Nat.pow_le_pow_left (by omega) _
    _ ≤ 10 ^ (n + 1) := Nat.pow_le_pow_right (by omega) (by omega)
  have heq : toDigits n = toDigitsAux k n [] :=
    toDigitsAux_fuel_irrel (n + 1) k n [] hself h (by omega) hk
  obtain ⟨ds, hds, hne, hdig, hval, hlen⟩ := toDigitsAux_spec k n [] h hk
  exact ⟨ds, by rw [heq, hds, List.append_nil], hne, hdig, hval, hlen⟩

theorem toDigits_props (n : Nat) :
    toDigits n ≠ [] ∧ (∀ c ∈ toDigits n, c.isDigit = true) ∧ digitsVal (toDigits n) = n := by
  have hself : n < 10 ^ (n + 1) := by
    calc n < 2 ^ n := Nat.lt_two_pow n
    _ ≤ 10 ^ n := Nat.pow_le_pow_left (by omega) _
    _ ≤ 10 ^ (n + 1) := Nat.pow_le_pow_right (by omega) (by omega)
  obtain ⟨ds, hds, hne, hdig, hval, _⟩ := toDigits_spec (n + 1) n (by omega) hself
  rw [hds]
  exact ⟨hne, hdig, hval⟩

theorem toDigits_length_le (k n : Nat) (hk : 1 ≤ k) (h : n < 10 ^ k) :
    (toDigits n).length ≤ k := by
  obtain ⟨ds, hds, _, _, _, hlen⟩ := toDigits_spec k n hk h
  rw [hds]
  exact hlen

/-! ### Go string primitives (`strings.Trim`, `strings.TrimSpace`,
`strings.Split`, `strings.Join`) modelled on `List Char` -/

/-- Strip leading and trailing characters satisfying `p`
(the shape shared by Go `strings.Trim` and `strings.TrimSpace`). -/
def trimBy (p : Char → Bool) (s : List Char) : List Char :=
  ((s.dropWhile p).reverse.dropWhile p).reverse

/-- Model of Go `strings.Trim s cutset`: strip all leading and trailing
characters contained in `cutset`. -/
def goTrim (s : List Char) (cutset : List Char) : List Char :=
  trimBy (fun c => cutset.contains c) s

/-- ASCII part of Go `unicode.IsSpace`, used by `strings.TrimSpace`. -/
def isSpaceChar (c : Char) : Bool :=
  c == ' ' || c == '\t' || c == '\n' || c == '\x0b' || c == '\x0c' || c == '\r'

/-- Model of Go `strings.TrimSpace`. -/
def goTrimSpace (s : List Char) : List Char := trimBy isSpaceChar s

/-- Model of Go `strings.Split s sep` for a one-character separator:
`goSplitChar [] c = [[]]`, matching `strings.Split("", ",") = [""]`. -/
def goSplitChar : List Char → Char → List (List Char)
  | [], _ => [[]]
  | c :: t, sep =>
      if c = sep then [] :: goSplitChar t sep
      else ((c :: (goSplitChar t sep).headD []) :: (goSplitChar t sep).tail)

/-- Model of Go `strings.Join parts sep`. -/
def goJoin (sep : List Char) : List (List Char) → List Char
  | [] => []
  | [p] => p
  | p :: rest => p ++ sep ++ goJoin sep rest

/-! ### The vector codec (`vectorToString`, `parseVectorString`) -/

/-- The integer `round(q·10⁶)` (nearest, half up), computed from the raw
numerator and denominator so that the kernel can evaluate it:
`⌊x + 1/2⌋ = (2·num·10⁶ + den) ÷ (2·den)` with floor division. -/
def round6 (q : ℚ) : Int :=
  Int.ediv (2 * q.num * 1000000 + (q.den : Int)) (2 * (q.den : Int))

/-- Left-pad a digit string with zeros to six characters. -/
def pad6 (ds : List Char) : List Char := List.replicate (6 - ds.length) '0' ++ ds

/-- Model of Go `fmt.Sprintf("%f", v)`: fixed-point decimal, exactly six
fractional digits, no exponent. -/
def fmt6 (q : ℚ) : List Char :=
  (if round6 q < 0 then ['-'] else []) ++
    (toDigits ((round6 q).natAbs / 1000000) ++
      '.' :: pad6 (toDigits ((round6 q).natAbs % 1000000)))

/-- Model of `vectorToString` (repository.go, lines 105-111): format every
component with `%f` and join with commas inside brackets. -/
def vectorToString (embedding : List ℚ) : List Char :=
  '[' :: (goJoin [','] (embedding.map fmt6) ++ [']'])

/-- Split an optional leading sign off a numeric token
(first component: the sign is negative). -/
def parseSign (s : List Char) : Bool × List Char :=
  match s with
  | [] => (false, [])
  | c :: t => if c = '-' then (true, t) else if c = '+' then (false, t) else (false, c :: t)

/-- Parse the exponent tail of a float token: optional sign, then at least
one digit, nothing after. -/
def parseExpPart (s : List Char) : Option Int :=
  let sg := parseSign s
  if sg.2 ≠ [] ∧ sg.2.all Char.isDigit then
    some (if sg.1 then -(digitsVal sg.2 : Int) else (digitsVal sg.2 : Int))
  else none

/-- The rational `m · 10ᵉ`, built with `Rat.divInt` so the kernel can
evaluate it. -/
def decValue (m : Int) (e : Int) : ℚ :=
  if 0 ≤ e then Rat.divInt (m * (10 : Int) ^ e.toNat) 1
  else Rat.divInt m ((10 : Int) ^ (-e).toNat)

/-- Model of Go `strconv.ParseFloat` on its decimal grammar: optional sign,
digits with an optional decimal point (at least one digit overall), optional
`e`/`E` exponent.  Returns the exact rational value.  (The `inf`/`nan`/hex
spellings and digit-group underscores accepted by Go, and the rounding to
`float32`, are outside the model; see the header comment.) -/
def parseFloat (s : List Char) : Option ℚ :=
  let sg := parseSign s
  let intds := sg.2.takeWhile Char.isDigit
  let r1 := sg.2.dropWhile Char.isDigit
  let fr : List Char × List Char :=
    if r1.head? = some '.' then (r1.tail.takeWhile Char.isDigit, r1.tail.dropWhile Char.isDigit)
    else ([], r1)
  if intds.length + fr.1.length = 0 then none
  else
    let eOpt : Option Int :=
      if fr.2 = [] then some 0
      else if fr.2.head? = some 'e' ∨ fr.2.head? = some 'E' then parseExpPart fr.2.tail
      else none
    eOpt.map (fun e =>
      decValue (if sg.1 then -(digitsVal (intds ++ fr.1) : Int) else (digitsVal (intds ++ fr.1) : Int))
        (e - (fr.1.length : Int)))

/-- Model of `parseVectorString` (repository.go, lines 177-193): trim the
bracket characters, return the empty vector on an empty interior, otherwise
split on commas and parse each whitespace-trimmed token, with tokens that
fail to parse left at the zero value of the preallocated slice. -/
def parseVectorString (vectorSTR : List Char) : List ℚ :=
  let t := goTrim vectorSTR ['[', ']']
  if t = [] then []
  else (goSplitChar t ',').map (fun part => (parseFloat (goTrimSpace part)).getD 0)

/-! ### Character classification -/

theorem isDigit_ne_syms {c : Char} (h : c.isDigit = true) :
    c ≠ '-' ∧ c ≠ '+' ∧ c ≠ '.' ∧ c ≠ ',' ∧ c ≠ '[' ∧ c ≠ ']' := by
  refine ⟨?_, ?_, ?_, ?_, ?_, ?_⟩ <;> (intro hc; subst hc; exact absurd h (by decide))

theorem isDigit_not_space {c : Char} (h : c.isDigit = true) : isSpaceChar c = false := by
  cases hh : isSpaceChar c
  · rfl
  · exfalso
    simp only [isSpaceChar, Bool.or_eq_true, beq_iff_eq] at hh
    rcases hh with ((((h1 | h1) | h1) | h1) | h1) | h1 <;>
      (subst h1; exact absurd h (by decide))

/-! ### takeWhile / dropWhile / trim lemmas -/

theorem takeWhile_dropWhile_append {p : Char → Bool} (ds : List Char) (c : Char) (r : List Char)
    (hds : ∀ x ∈ ds, p x = true) (hc : p c = false) :
    (ds ++ c :: r).takeWhile p = ds ∧ (ds ++ c :: r).dropWhile p = c :: r := by
  induction ds with
  | nil => simp [List.takeWhile_cons, List.dropWhile_cons, hc]
  | cons d t ih =>
      have hd : p d = true := hds d (by simp)
      have iht := ih (fun x hx => hds x (by simp [hx]))
      simp [List.takeWhile_cons, List.dropWhile_cons, hd, iht.1, iht.2]

theorem takeWhile_all_eq {p : Char → Bool} (l : List Char) (h : ∀ x ∈ l, p x = true) :
    l.takeWhile p = l ∧ l.dropWhile p = [] := by
  induction l with
  | nil => simp
  | cons d t ih =>
      have hd : p d = true := h d (by simp)
      have iht := ih (fun x hx => h x (by simp [hx]))
      simp [List.takeWhile_cons, List.dropWhile_cons, hd, iht.1, iht.2]

theorem dropWhile_all_false {p : Char → Bool} (l : List Char) (h : ∀ c ∈ l, p c = false) :
    l.dropWhile p = l := by
  cases l with
  | nil => rfl
  | cons c t => simp [List.dropWhile_cons, h c (by simp)]

theorem trimBy_eq_self {p : Char → Bool} (s : List Char) (h : ∀ c ∈ s, p c = false) :
    trimBy p s = s := by
  unfold trimBy
  rw [dropWhile_all_false s h,
    dropWhile_all_false s.reverse (fun c hc => h c (List.mem_reverse.mp hc)),
    List.reverse_reverse]

theorem trimBy_wrap {p : Char → Bool} (a b : Char) (s : List Char)
    (ha : p a = true) (hb : p b = true) (h : ∀ c ∈ s, p c = false) :
    trimBy p (a :: (s ++ [b])) = s := by
  unfold trimBy
  have h1 : (a :: (s ++ [b])).dropWhile p = (s ++ [b]).dropWhile p := by
    simp [List.dropWhile_cons, ha]
  rw [h1]
  cases s with
  | nil =>
      have : ([b] : List Char).dropWhile p = [] := by simp [List.dropWhile_cons, hb]
      simp [this]
  | cons c t =>
      have h2 : ((c :: t) ++ [b]).dropWhile p = c :: (t ++ [b]) := by
        simp [List.dropWhile_cons, h c (by simp)]
      rw [h2]
      have e2 : (c :: (t ++ [b])).reverse = b :: (t.reverse ++ [c]) := by simp
      rw [e2]
      have h3 : (b :: (t.reverse ++ [c])).dropWhile p = (t.reverse ++ [c]).dropWhile p := by
        simp [List.dropWhile_cons, hb]
      rw [h3, dropWhile_all_false (t.reverse ++ [c]) ?hall]
      · simp
      · intro x hx
        rcases List.mem_append.mp hx with h4 | h4
        · exact h x (by simp [List.mem_reverse.mp h4])
        · simp at h4
          subst h4
          exact h x (by simp)

/-! ### Split / join lemmas -/

theorem goSplitChar_no_sep (sep : Char) : ∀ p : List Char, sep ∉ p →
    goSplitChar p sep = [p] := by
  intro p
  induction p with
  | nil => intro _; rfl
  | cons c t ih =>
      intro h
      have hc : ¬ (c = sep) := fun he => h (by simp [he])
      have ht := ih (fun hm => h (by simp [hm]))
      simp [goSplitChar, hc, ht]

theorem goSplitChar_append (sep : Char) : ∀ p t : List Char, sep ∉ p →
    goSplitChar (p ++ sep :: t) sep = p :: goSplitChar t sep := by
  intro p
  induction p with
  | nil => intro t _; simp [goSplitChar]
  | cons c q ih =>
      intro t h
      have hc : ¬ (c = sep) := fun he => h (by simp [he])
      have hq := ih t (fun hm => h (by simp [hm]))
      simp [goSplitChar, hc, hq]

theorem goSplitChar_goJoin (sep : Char) : ∀ parts : List (List Char), parts ≠ [] →
    (∀ p ∈ parts, sep ∉ p) → goSplitChar (goJoin [sep] parts) sep = parts := by
  intro parts
  induction parts with
  | nil => intro h; cases h rfl
  | cons p rest ih =>
      intro _ hall
      cases rest with
      | nil => simpa [goJoin] using goSplitChar_no_sep sep p (hall p (by simp))
      | cons p2 r2 =>
          have e : goJoin [sep] (p :: p2 :: r2) = p ++ sep :: goJoin [sep] (p2 :: r2) := by
            show p ++ [sep] ++ goJoin [sep] (p2 :: r2) = _
            simp
          rw [e, goSplitChar_append sep p _ (hall p (by simp)),
            ih (by simp) (fun x hx => hall x (by simp [hx]))]

theorem mem_goJoin (sep : List Char) : ∀ (parts : List (List Char)) (c : Char),
    c ∈ goJoin sep parts → c ∈ sep ∨ ∃ p ∈ parts, c ∈ p := by
  intro parts
  induction parts with
  | nil => intro c hc; simp [goJoin] at hc
  | cons p rest ih =>
      intro c hc
      cases rest with
      | nil => exact Or.inr ⟨p, by simp, hc⟩
      | cons p2 r2 =>
          have hc2 : c ∈ p ++ [] ++ sep ++ goJoin sep (p2 :: r2) := by
            simpa [goJoin] using hc
          simp only [List.append_nil, List.append_assoc, List.mem_append] at hc2
          rcases hc2 with h1 | h1 | h1
          · exact Or.inr ⟨p, by simp, h1⟩
          · exact Or.inl h1
          · rcases ih c h1 with h | ⟨x, hx, hcx⟩
            · exact Or.inl h
            · exact Or.inr ⟨x, by simp [hx], hcx⟩

/-! ### Structure of formatted tokens -/

theorem digitsVal_cons (c : Char) (l : List Char) :
    digitsVal (c :: l) = digitVal c * 10 ^ l.length + digitsVal l := by
  have e : c :: l = [c] ++ l := rfl
  rw [e, digitsVal_append]
  have h1 : digitsVal [c] = digitVal c := by
    show List.foldl _ _ _ = _
    simp [List.foldl]
  rw [h1]

theorem digitsVal_replicate_zero (k : Nat) : digitsVal (List.replicate k '0') = 0 := by
  induction k with
  | zero => rfl
  | succ m ih =>
      rw [List.replicate_succ, digitsVal_cons, ih]
      have : digitVal '0' = 0 := by decide
      simp [this]

theorem pad6_spec (ds : List Char) (hlen : ds.length ≤ 6)
    (hdig : ∀ c ∈ ds, c.isDigit = true) :
    (pad6 ds).length = 6 ∧ (∀ c ∈ pad6 ds, c.isDigit = true) ∧
      digitsVal (pad6 ds) = digitsVal ds := by
  refine ⟨?_, ?_, ?_⟩
  · simp [pad6]
    omega
  · intro c hc
    rcases List.mem_append.mp hc with h | h
    · have hc0 : c = '0' := List.eq_of_mem_replicate h
      subst hc0
      decide
    · exact hdig c h
  · show digitsVal (List.replicate (6 - ds.length) '0' ++ ds) = digitsVal ds
    rw [digitsVal_append, digitsVal_replicate_zero]
    simp

theorem fmt6_shape (q : ℚ) :
    ∃ sign I F, fmt6 q = sign ++ (I ++ '.' :: F) ∧
      ((sign = [] ∧ 0 ≤ round6 q) ∨ (sign = ['-'] ∧ round6 q < 0)) ∧
      I ≠ [] ∧ (∀ c ∈ I, c.isDigit = true) ∧ (∀ c ∈ F, c.isDigit = true) ∧
      F.length = 6 ∧
      digitsVal I * 1000000 + digitsVal F = (round6 q).natAbs := by
  obtain ⟨hIne, hIdig, hIval⟩ := toDigits_props ((round6 q).natAbs / 1000000)
  obtain ⟨_, hFdig, hFval⟩ := toDigits_props ((round6 q).natAbs % 1000000)
  have hmod : (round6 q).natAbs % 1000000 < 10 ^ 6 := by
    have h1 : (10 : Nat) ^ 6 = 1000000 := by norm_num
    rw [h1]
    exact Nat.mod_lt _ (by norm_num)
  have hlen : (toDigits ((round6 q).natAbs % 1000000)).length ≤ 6 :=
    toDigits_length_le 6 _ (by omega) hmod
  obtain ⟨hplen, hpdig, hpval⟩ := pad6_spec _ hlen hFdig
  refine ⟨if round6 q < 0 then ['-'] else [], toDigits ((round6 q).natAbs / 1000000),
    pad6 (toDigits ((round6 q).natAbs % 1000000)), rfl, ?_, hIne, hIdig, hpdig, hplen, ?_⟩
  · by_cases hlt : round6 q < 0
    · exact Or.inr ⟨by simp [hlt], hlt⟩
    · exact Or.inl ⟨by simp [hlt], by omega⟩
  · rw [hIval, hpval, hFval]
    omega

theorem fmt6_char_class (q : ℚ) : ∀ c ∈ fmt6 q, c = '-' ∨ c = '.' ∨ c.isDigit = true := by
  obtain ⟨sign, I, F, heq, hsign, _, hIdig, hFdig, _, _⟩ := fmt6_shape q
  intro c hc
  rw [heq] at hc
  rcases List.mem_append.mp hc with h | h
  · rcases hsign with ⟨hs, _⟩ | ⟨hs, _⟩ <;> subst hs
    · simp at h
    · simp at h
      subst h
      exact Or.inl rfl
  · rcases List.mem_append.mp h with h1 | h1
    · exact Or.inr (Or.inr (hIdig c h1))
    · rcases List.mem_cons.mp h1 with h2 | h2
      · exact Or.inr (Or.inl h2)
      · exact Or.inr (Or.inr (hFdig c h2))

theorem fmt6_ne_nil (q : ℚ) : fmt6 q ≠ [] := by
  obtain ⟨sign, I, F, heq, _, hIne, _, _, _, _⟩ := fmt6_shape q
  rw [heq]
  intro hcon
  rcases List.append_eq_nil.mp hcon with ⟨_, h2⟩
  rcases List.append_eq_nil.mp h2 with ⟨hI, _⟩
  exact hIne hI

/-! ### Parsing a formatted token -/

theorem parseSign_cons_ne (c : Char) (t : List Char) (h1 : c ≠ '-') (h2 : c ≠ '+') :
    parseSign (c :: t) = (false, c :: t) := by
  simp [parseSign, h1, h2]

theorem parseSign_neg (t : List Char) : parseSign ('-' :: t) = (true, t) := rfl

theorem parseFloat_token (neg : Bool) (s : List Char) (I F : List Char)
    (hsg : parseSign s = (neg, I ++ '.' :: F))
    (hIne : I ≠ []) (hIdig : ∀ c ∈ I, c.isDigit = true) (hFdig : ∀ c ∈ F, c.isDigit = true) :
    parseFloat s = some (decValue
      (if neg then -(digitsVal (I ++ F) : Int) else (digitsVal (I ++ F) : Int))
      (0 - (F.length : Int))) := by
  obtain ⟨htake, hdrop⟩ := takeWhile_dropWhile_append I '.' F hIdig (by decide)
  obtain ⟨hFtake, hFdrop⟩ := takeWhile_all_eq F hFdig
  have hIlen : I.length ≠ 0 := fun hcon => hIne (List.eq_nil_of_length_eq_zero hcon)
  simp only [parseFloat, hsg, htake, hdrop, List.head?_cons, List.tail_cons, hFtake, hFdrop,
    Option.some.injEq, if_pos rfl]
  rw [if_neg (by omega)]
  simp

theorem parseFloat_fmt6 (q : ℚ) :
    parseFloat (fmt6 q) = some (Rat.divInt (round6 q) 1000000) := by
  obtain ⟨sign, I, F, heq, hsign, hIne, hIdig, hFdig, hFlen, hval⟩ := fmt6_shape q
  have hm : (digitsVal (I ++ F) : Int) = ((round6 q).natAbs : Int) := by
    rw [digitsVal_append, hFlen, show (10 : Nat) ^ 6 = 1000000 by norm_num]
    exact_mod_cast hval
  rcases hsign with ⟨hs, hnn⟩ | ⟨hs, hneg⟩
  · subst hs
    obtain ⟨c, I2, rfl⟩ : ∃ c I2, I = c :: I2 := by
      cases I with
      | nil => exact absurd rfl hIne
      | cons c I2 => exact ⟨c, I2, rfl⟩
    have hc : c.isDigit = true := hIdig c (by simp)
    have hsg : parseSign (fmt6 q) = (false, (c :: I2) ++ '.' :: F) := by
      rw [heq, List.nil_append]
      exact parseSign_cons_ne c _ (isDigit_ne_syms hc).1 (isDigit_ne_syms hc).2.1
    rw [parseFloat_token false _ _ F hsg hIne hIdig hFdig]
    rw [hFlen]
    have hmm : (if false = true then -(digitsVal ((c :: I2) ++ F) : Int)
        else (digitsVal ((c :: I2) ++ F) : Int)) = round6 q := by
      rw [if_neg (by decide), hm, Int.natAbs_of_nonneg hnn]
    rw [hmm]
    show some (decValue (round6 q) (0 - (6 : Int))) = _
    unfold decValue
    rw [if_neg (by decide), show ((-(0 - (6 : Int))).toNat) = 6 by decide,
      show (10 : Int) ^ (6 : Nat) = 1000000 by decide]
  · subst hs
    have hsg : parseSign (fmt6 q) = (true, I ++ '.' :: F) := by
      rw [heq]
      exact parseSign_neg _
    rw [parseFloat_token true _ _ F hsg hIne hIdig hFdig]
    rw [hFlen]
    have hmm : (if true = true then -(digitsVal (I ++ F) : Int)
        else (digitsVal (I ++ F) : Int)) = round6 q := by
      rw [if_pos rfl, hm, Int.ofNat_natAbs_of_nonpos (le_of_lt hneg)]
      simp
    rw [hmm]
    show some (decValue (round6 q) (0 - (6 : Int))) = _
    unfold decValue
    rw [if_neg (by decide), show ((-(0 - (6 : Int))).toNat) = 6 by decide,
      show (10 : Int) ^ (6 : Nat) = 1000000 by decide]

/-! ### Decode ∘ encode -/

theorem goJoin_fmt6_class (parts : List (List Char)) (hparts : ∀ p ∈ parts, ∃ x, p = fmt6 x) :
    ∀ c ∈ goJoin [','] parts, c = ',' ∨ c = '-' ∨ c = '.' ∨ c.isDigit = true := by
  intro c hc
  rcases mem_goJoin [','] parts c hc with h | ⟨p, hp, hcp⟩
  · simp at h
    exact Or.inl h
  · obtain ⟨x, rfl⟩ := hparts p hp
    rcases fmt6_char_class x c hcp with h | h | h
    · exact Or.inr (Or.inl h)
    · exact Or.inr (Or.inr (Or.inl h))
    · exact Or.inr (Or.inr (Or.inr h))

theorem parseVectorString_vectorToString (v : List ℚ) :
    parseVectorString (vectorToString v) = v.map (fun q => Rat.divInt (round6 q) 1000000) := by
  cases v with
  | nil => rfl
  | cons q vs =>
      have hparts : ∀ p ∈ (q :: vs).map fmt6, ∃ x, p = fmt6 x := by
        intro p hp
        obtain ⟨x, _, rfl⟩ := List.mem_map.mp hp
        exact ⟨x, rfl⟩
      have hclass := goJoin_fmt6_class ((q :: vs).map fmt6) hparts
      have hnosep : ∀ p ∈ (q :: vs).map fmt6, ',' ∉ p := by
        intro p hp hmem
        obtain ⟨x, rfl⟩ := hparts p hp
        rcases fmt6_char_class x ',' hmem with h | h | h
        · exact absurd h (by decide)
        · exact absurd h (by decide)
        · exact absurd h (by decide)
      have hjoin_class : ∀ c ∈ goJoin [','] ((q :: vs).map fmt6),
          (List.contains ['[', ']'] c) = false := by
        intro c hc
        rcases hclass c hc with h | h | h | h
        · subst h; decide
        · subst h; decide
        · subst h; decide
        · have h6 := isDigit_ne_syms h
          simp only [List.contains_cons, List.contains_nil, Bool.or_eq_false_iff,
            beq_eq_false_iff_ne]
          exact ⟨h6.2.2.2.2.1, h6.2.2.2.2.2, trivial⟩
      have hinterior : goTrim (vectorToString (q :: vs)) ['[', ']']
          = goJoin [','] ((q :: vs).map fmt6) := by
        show trimBy _ ('[' :: (goJoin [','] ((q :: vs).map fmt6) ++ [']'])) = _
        exact trimBy_wrap '[' ']' _ (by decide) (by decide) hjoin_class
      have hjoin_ne : goJoin [','] ((q :: vs).map fmt6) ≠ [] := by
        cases vs with
        | nil => simpa [goJoin] using fmt6_ne_nil q
        | cons q2 vs2 =>
            show fmt6 q ++ [','] ++ goJoin [','] (fmt6 q2 :: vs2.map fmt6) ≠ []
            simp
      show (if goTrim (vectorToString (q :: vs)) ['[', ']'] = [] then ([] : List ℚ)
          else (goSplitChar (goTrim (vectorToString (q :: vs)) ['[', ']']) ',').map
            (fun part => (parseFloat (goTrimSpace part)).getD 0)) = _
      rw [hinterior, if_neg hjoin_ne,
        goSplitChar_goJoin ',' ((q :: vs).map fmt6) (by simp) hnosep, List.map_map]
      refine List.map_congr_left ?_
      intro x _
      show (parseFloat (goTrimSpace (fmt6 x))).getD 0 = Rat.divInt (round6 x) 1000000
      have hsp : goTrimSpace (fmt6 x) = fmt6 x := by
        apply trimBy_eq_self
        intro c hc
        rcases fmt6_char_class x c hc with h | h | h
        · subst h; decide
        · subst h; decide
        · exact isDigit_not_space h
      rw [hsp, parseFloat_fmt6]
      rfl

/-- The rounded value written by `fmt6` is within half of `10⁻⁶` of the
original component. -/
theorem round6_tolerance (q : ℚ) :
    |Rat.divInt (round6 q) 1000000 - q| ≤ 1 / 1000000 := by
  unfold round6
  set X : Int := 2 * q.num * 1000000 + (q.den : Int) with hX
  set D : Int := 2 * (q.den : Int) with hD
  have hdpos : (0 : Int) < (q.den : Int) := by exact_mod_cast q.pos
  have hDpos : (0 : Int) < D := by omega
  set E : Int := Int.ediv X D with hE
  set r : Int := Int.emod X D with hr
  have hid : D * E + r = X := Int.ediv_add_emod X D
  have hr0 : 0 ≤ r := Int.emod_nonneg X (by omega)
  have hrD : r < D := Int.emod_lt_of_pos X hDpos
  have hdQpos : (0 : ℚ) < (q.den : ℚ) := by exact_mod_cast q.pos
  have hdQ : ((q.den : ℚ)) ≠ 0 := ne_of_gt hdQpos
  have hpos : (0 : ℚ) < 2 * (q.den : ℚ) * 1000000 := by positivity
  have hmul : q * (q.den : ℚ) = (q.num : ℚ) := by
    nth_rewrite 1 [← Rat.num_div_den q]
    exact div_mul_cancel₀ _ hdQ
  have hcast : 2 * (q.den : ℚ) * (E : ℚ) + (r : ℚ) = 2 * (q.num : ℚ) * 1000000 + (q.den : ℚ) := by
    have h1 : ((D * E + r : Int) : ℚ) = ((X : Int) : ℚ) :=
      congrArg (fun z : Int => (z : ℚ)) hid
    rw [hX, hD] at h1
    push_cast at h1
    linarith [h1]
  have key : Rat.divInt E 1000000 - q = ((q.den : ℚ) - (r : ℚ)) / (2 * (q.den : ℚ) * 1000000) := by
    rw [Rat.divInt_eq_div]
    push_cast
    rw [div_sub' _ q 1000000 (by norm_num)]
    rw [div_eq_div_iff (by norm_num : (1000000 : ℚ) ≠ 0) (ne_of_gt hpos)]
    linear_combination (1000000 : ℚ) * hcast - 2000000000000 * hmul
  rw [key, abs_div, abs_of_pos hpos]
  have hnum : |(q.den : ℚ) - (r : ℚ)| ≤ (q.den : ℚ) := by
    have h0 : (0 : ℚ) ≤ (r : ℚ) := by exact_mod_cast hr0
    have h1 : (r : ℚ) < 2 * (q.den : ℚ) := by
      have h2 : r < 2 * (q.den : Int) := by omega
      calc (r : ℚ) < ((2 * (q.den : Int) : Int) : ℚ) := by exact_mod_cast h2
      _ = 2 * (q.den : ℚ) := by push_cast; ring
    rw [abs_le]
    constructor <;> linarith
  calc |(q.den : ℚ) - (r : ℚ)| / (2 * (q.den : ℚ) * 1000000)
      ≤ (q.den : ℚ) / (2 * (q.den : ℚ) * 1000000) := by gcongr
  _ = 1 / 2000000 := by
        rw [div_eq_div_iff (ne_of_gt hpos) (by norm_num)]
        ring
  _ ≤ 1 / 1000000 := by norm_num

/-! ### Endpoint resolution (`getOllamaURL`, repository.go lines 17-27)

The process environment is passed explicitly: `ollamaURL` is the value of
`os.Getenv "OLLAMA_URL"` (empty when unset, exactly as in Go), and
`dockerContainer` is the presence bit of `os.LookupEnv "DOCKER_CONTAINER"`. -/

def getOllamaURL (ollamaURL : List Char) (dockerContainer : Bool) : List Char :=
  if ollamaURL ≠ [] then ollamaURL
  else if dockerContainer then "http://host.docker.internal:11434".data
  else "http://localhost:11434".data

/-! ### The document model

`models.Document` is not part of the sources.  Modelled from the spec:
identity assigned by the store, textual content, optional media-type and
file-name labels, embedding vector, creation timestamp (spec §3).  `ID` and
`CreatedAt` are opaque scalars, modelled as integers. -/

structure Document where
  ID : Int
  Content : List Char
  MediaType : Option (List Char)
  FileName : Option (List Char)
  Embedding : List ℚ
  CreatedAt : Int
deriving DecidableEq, Repr

/-! ### `CreateDocument` (repository.go lines 30-87) -/

/-- Outcome of the embedding call: `http.Post`, `io.ReadAll` and
`json.Unmarshal` folded into one external observation.
`connError` models a transport failure of `http.Post`; `readError` a failure
of `io.ReadAll` on the response body (the read happens before the status
check); `badBody` a body on which `json.Unmarshal` fails; `okBody` a body
whose `embedding` field unmarshals to the given vector.  The provider status
code accompanies the latter two. -/
inductive EmbedOutcome where
  | connError : EmbedOutcome
  | readError : EmbedOutcome
  | badBody : Int → EmbedOutcome
  | okBody : Int → List ℚ → EmbedOutcome
deriving DecidableEq

/-- External world of one `CreateDocument` run: whether `json.Marshal`
succeeds, the embedding-call outcome, and the database's answer to the
insert (`QueryRow(...).Scan` returning `(id, created_at)` or an error). -/
structure CreateWorld where
  marshalOk : Bool
  embed : EmbedOutcome
  insert : Except Unit (Int × Int)

/-- The errors `CreateDocument` can return, one per `fmt.Errorf` site. -/
inductive CreateError where
  | marshalError : CreateError
  | connError : CreateError
  | readError : CreateError
  | statusError : Int → CreateError
  | parseError : CreateError
  | dbError : CreateError
deriving DecidableEq

/-- One insert statement sent to the database, with the parameters of the
`INSERT INTO documents ... RETURNING id, created_at` query. -/
structure WriteCall where
  Content : List Char
  MediaType : Option (List Char)
  FileName : Option (List Char)
  EmbeddingStr : List Char
deriving DecidableEq

/-- Result of a `CreateDocument` run: the returned error (`none` = `nil`),
the final state of the `*models.Document` the caller passed in, and the
write calls issued to the database, in order. -/
structure CreateResult where
  err : Option CreateError
  doc : Document
  writes : List WriteCall
deriving DecidableEq

/-- Model of `CreateDocument` (repository.go lines 30-87).  Mirrors the
control flow: marshal the request; POST it; read the body; reject a non-200
status; unmarshal; assign `doc.Embedding`; encode it with `vectorToString`
and run the insert; on success scan `(id, created_at)` into the document. -/
def CreateDocument (w : CreateWorld) (doc : Document) : CreateResult :=
  if w.marshalOk = false then ⟨some .marshalError, doc, []⟩
  else
    match w.embed with
    | .connError => ⟨some .connError, doc, []⟩
    | .readError => ⟨some .readError, doc, []⟩
    | .badBody s =>
        if s ≠ 200 then ⟨some (.statusError s), doc, []⟩
        else ⟨some .parseError, doc, []⟩
    | .okBody s emb =>
        if s ≠ 200 then ⟨some (.statusError s), doc, []⟩
        else
          match w.insert with
          | .error _ => ⟨some .dbError, { doc with Embedding := emb },
              [⟨doc.Content, doc.MediaType, doc.FileName, vectorToString emb⟩]⟩
          | .ok (i, t) => ⟨none,
              { doc with Embedding := emb, ID := i, CreatedAt := t },
              [⟨doc.Content, doc.MediaType, doc.FileName, vectorToString emb⟩]⟩

/-- The embedding stage succeeds exactly when the request marshals and the
provider answers 200 with a body that unmarshals. -/
def embedFailed (w : CreateWorld) : Bool :=
  !w.marshalOk ||
    (match w.embed with
     | .okBody s _ => s != 200
     | _ => true)

/-! ### `SearchSimilarDocuments` (repository.go lines 128-175) -/

/-- One row as scanned by `rows.Scan` in the search loop: the seven selected
columns `id, content, media_type, file_name, embedding, created_at,
similarity`.  `MediaType`/`FileName` model `sql.NullString` (`none` = NULL). -/
structure ScannedRow where
  ID : Int
  Content : List Char
  MediaType : Option (List Char)
  FileName : Option (List Char)
  EmbeddingStr : List Char
  CreatedAt : Int
  Similarity : ℚ
deriving DecidableEq

/-- The document built from one successfully scanned row (loop body, lines
150-171): NULL labels become nil pointers, the embedding column is decoded
with `parseVectorString`, and the scanned similarity is only logged — it is
not stored in the document. -/
def rowToDoc (r : ScannedRow) : Document :=
  { ID := r.ID, Content := r.Content, MediaType := r.MediaType, FileName := r.FileName,
    Embedding := parseVectorString r.EmbeddingStr, CreatedAt := r.CreatedAt }

/-- The scan loop (lines 149-172): a row whose `rows.Scan` fails is logged
and skipped by `continue`; a scanned row is appended. -/
def processRows : List (Except Unit ScannedRow) → List Document
  | [] => []
  | Except.error _ :: rest => processRows rest
  | Except.ok r :: rest => rowToDoc r :: processRows rest

/-- Model of `SearchSimilarDocuments`: encode the query vector, hand the
encoded text and the limit to the database, fail if the query fails,
otherwise run the scan loop over the returned rows.  The database is an
explicit function from the two query parameters to either a query error or
the list of rows (each of which may fail to scan). -/
def SearchSimilarDocuments
    (db : List Char → Int → Except Unit (List (Except Unit ScannedRow)))
    (queryEmbedding : List ℚ) (limit : Int) : Except Unit (List Document) :=
  match db (vectorToString queryEmbedding) limit with
  | .error e => .error e
  | .ok rows => .ok (processRows rows)

/-! ### The SQL semantics of the search query

The query text is
`SELECT id, content, media_type, file_name, embedding, created_at,
1 - (embedding <=> $1) as similarity FROM documents
ORDER BY embedding <=> $1 LIMIT $2`.
Its meaning over a stored table: sort the rows by ascending distance of the
`embedding` column to the query parameter, keep at most `limit` rows, and
annotate every returned row with `1 - distance`.  The pgvector operator
`<=>` is abstracted as a distance function on the stored rows. -/

/-- One stored row of the `documents` table. -/
structure StoredRow where
  ID : Int
  Content : List Char
  MediaType : Option (List Char)
  FileName : Option (List Char)
  EmbeddingStr : List Char
  CreatedAt : Int
deriving DecidableEq

/-- Insert a row into a list that is already sorted by ascending distance. -/
def insertAsc (dist : StoredRow → ℚ) (r : StoredRow) : List StoredRow → List StoredRow
  | [] => [r]
  | x :: xs => if dist r < dist x then r :: x :: xs else x :: insertAsc dist r xs

/-- `ORDER BY embedding <=> $1`: sort by ascending distance. -/
def orderByDist (dist : StoredRow → ℚ) : List StoredRow → List StoredRow
  | [] => []
  | x :: xs => insertAsc dist x (orderByDist dist xs)

/-- The result set of the search query: ordered, truncated to `limit`, each
row annotated with `similarity = 1 - distance`. -/
def runSearchQuery (table : List StoredRow) (dist : StoredRow → ℚ) (limit : Nat) :
    List (StoredRow × ℚ) :=
  ((orderByDist dist table).take limit).map (fun r => (r, 1 - dist r))

/-- A database executing the search query over `table` with metric `dist`,
answering any encoded query text with the query's result rows (all of which
scan successfully). -/
def dbOfTable (table : List StoredRow) (dist : StoredRow → ℚ) (limit : Nat) :
    Except Unit (List (Except Unit ScannedRow)) :=
  .ok ((runSearchQuery table dist limit).map (fun rs =>
    .ok ⟨rs.1.ID, rs.1.Content, rs.1.MediaType, rs.1.FileName, rs.1.EmbeddingStr,
      rs.1.CreatedAt, rs.2⟩))

/-! ### Ordering lemmas for the SQL model -/

theorem mem_insertAsc (dist : StoredRow → ℚ) (r y : StoredRow) :
    ∀ l : List StoredRow, y ∈ insertAsc dist r l ↔ y = r ∨ y ∈ l := by
  intro l
  induction l with
  | nil => simp [insertAsc]
  | cons x xs ih =>
      simp only [insertAsc]
      by_cases hc : dist r < dist x
      · rw [if_pos hc]
        simp
      · rw [if_neg hc]
        simp [ih]
        tauto

theorem insertAsc_sorted (dist : StoredRow → ℚ) (r : StoredRow) :
    ∀ l : List StoredRow, List.Pairwise (fun a b => dist a ≤ dist b) l →
      List.Pairwise (fun a b => dist a ≤ dist b) (insertAsc dist r l) := by
  intro l
  induction l with
  | nil => intro _; simp [insertAsc]
  | cons x xs ih =>
      intro h
      rcases List.pairwise_cons.mp h with ⟨hx, hxs⟩
      simp only [insertAsc]
      by_cases hc : dist r < dist x
      · rw [if_pos hc]
        refine List.pairwise_cons.mpr ⟨?_, h⟩
        intro y hy
        rcases List.mem_cons.mp hy with rfl | hy2
        · exact le_of_lt hc
        · exact le_trans (le_of_lt hc) (hx y hy2)
      · rw [if_neg hc]
        refine List.pairwise_cons.mpr ⟨?_, ih hxs⟩
        intro y hy
        rcases (mem_insertAsc dist r y xs).mp hy with rfl | hy2
        · exact le_of_not_lt hc
        · exact hx y hy2

theorem orderByDist_sorted (dist : StoredRow → ℚ) :
    ∀ l : List StoredRow, List.Pairwise (fun a b => dist a ≤ dist b) (orderByDist dist l) := by
  intro l
  induction l with
  | nil => simp [orderByDist]
  | cons x xs ih => exact insertAsc_sorted dist x _ ih

/-! ### Scan-loop lemma -/

theorem processRows_filterMap (rows : List (Except Unit ScannedRow)) :
    processRows rows = (rows.filterMap Except.toOption).map rowToDoc := by
  induction rows with
  | nil => rfl
  | cons r rest ih =>
      cases r with
      | error e => simpa [processRows, Except.toOption] using ih
      | ok v => simp [processRows, Except.toOption, ih]

/-! ### Fixed-point token checker (for the encode-format claim) -/

/-- Body of a fixed-point token after an optional sign: at least one integer
digit, a point, exactly six fractional digits, nothing else (so no exponent
and no whitespace). -/
def fixed6Body (s : List Char) : Bool :=
  !(s.takeWhile Char.isDigit).isEmpty &&
  ((s.dropWhile Char.isDigit).head? == some '.') &&
  ((s.dropWhile Char.isDigit).tail.length == 6) &&
  (s.dropWhile Char.isDigit).tail.all Char.isDigit &&
  ((s.dropWhile Char.isDigit).tail.dropWhile Char.isDigit == [])

/-- A token in the `%f` fixed-point shape with six fractional digits,
optionally preceded by a minus sign. -/
def fixed6Token (s : List Char) : Bool :=
  if s.head? = some '-' then fixed6Body s.tail else fixed6Body s

theorem fixed6Body_of_shape (I F : List Char) (hIne : I ≠ [])
    (hIdig : ∀ c ∈ I, c.isDigit = true) (hFdig : ∀ c ∈ F, c.isDigit = true)
    (hFlen : F.length = 6) : fixed6Body (I ++ '.' :: F) = true := by
  obtain ⟨htake, hdrop⟩ := takeWhile_dropWhile_append I '.' F hIdig (by decide)
  obtain ⟨hFtake, hFdrop⟩ := takeWhile_all_eq F hFdig
  unfold fixed6Body
  rw [htake, hdrop]
  simp [hIne, hFlen, hFdrop]
  intro c hc
  exact hFdig c hc

theorem fixed6Token_fmt6 (q : ℚ) : fixed6Token (fmt6 q) = true := by
  obtain ⟨sign, I, F, heq, hsign, hIne, hIdig, hFdig, hFlen, _⟩ := fmt6_shape q
  rcases hsign with ⟨hs, _⟩ | ⟨hs, _⟩ <;> subst hs
  · rw [heq, List.nil_append]
    obtain ⟨c, I2, rfl⟩ : ∃ c I2, I = c :: I2 := by
      cases I with
      | nil => exact absurd rfl hIne
      | cons c I2 => exact ⟨c, I2, rfl⟩
    have hc := hIdig c (by simp)
    unfold fixed6Token
    rw [if_neg ?hne]
    case hne =>
      simp only [List.cons_append, List.head?_cons, Option.some.injEq]
      exact (isDigit_ne_syms hc).1
    exact fixed6Body_of_shape _ F hIne hIdig hFdig hFlen
  · rw [heq]
    unfold fixed6Token
    simp only [List.singleton_append, List.head?_cons, List.tail_cons]
    rw [if_pos trivial]
    exact fixed6Body_of_shape I F hIne hIdig hFdig hFlen

/-! ### Helper lemmas shared by the codec claims -/

theorem goTrim_vectorToString (v : List ℚ) (hv : v ≠ []) :
    goTrim (vectorToString v) ['[', ']'] = goJoin [','] (v.map fmt6) := by
  obtain ⟨q, vs, rfl⟩ : ∃ q vs, v = q :: vs := by
    cases v with
    | nil => exact absurd rfl hv
    | cons q vs => exact ⟨q, vs, rfl⟩
  have hparts : ∀ p ∈ (q :: vs).map fmt6, ∃ x, p = fmt6 x := by
    intro p hp
    obtain ⟨x, _, rfl⟩ := List.mem_map.mp hp
    exact ⟨x, rfl⟩
  have hclass := goJoin_fmt6_class ((q :: vs).map fmt6) hparts
  have hjoin_class : ∀ c ∈ goJoin [','] ((q :: vs).map fmt6),
      (List.contains ['[', ']'] c) = false := by
    intro c hc
    rcases hclass c hc with h | h | h | h
    · subst h; decide
    · subst h; decide
    · subst h; decide
    · have h6 := isDigit_ne_syms h
      simp only [List.contains_cons, List.contains_nil, Bool.or_eq_false_iff,
        beq_eq_false_iff_ne]
      exact ⟨h6.2.2.2.2.1, h6.2.2.2.2.2, trivial⟩
  show trimBy _ ('[' :: (goJoin [','] ((q :: vs).map fmt6) ++ [']'])) = _
  exact trimBy_wrap '[' ']' _ (by decide) (by decide) hjoin_class

theorem goJoin_fmt6_ne_nil (v : List ℚ) (hv : v ≠ []) :
    goJoin [','] (v.map fmt6) ≠ [] := by
  obtain ⟨q, vs, rfl⟩ : ∃ q vs, v = q :: vs := by
    cases v with
    | nil => exact absurd rfl hv
    | cons q vs => exact ⟨q, vs, rfl⟩
  cases vs with
  | nil => simpa [goJoin] using fmt6_ne_nil q
  | cons q2 vs2 =>
      show fmt6 q ++ [','] ++ goJoin [','] (fmt6 q2 :: vs2.map fmt6) ≠ []
      simp

theorem goSplit_goTrim_vectorToString (v : List ℚ) (hv : v ≠ []) :
    goSplitChar (goTrim (vectorToString v) ['[', ']']) ',' = v.map fmt6 := by
  have hnosep : ∀ p ∈ v.map fmt6, ',' ∉ p := by
    intro p hp hmem
    obtain ⟨x, _, rfl⟩ := List.mem_map.mp hp
    rcases fmt6_char_class x ',' hmem with h | h | h
    · exact absurd h (by decide)
    · exact absurd h (by decide)
    · exact absurd h (by decide)
  rw [goTrim_vectorToString v hv,
    goSplitChar_goJoin ',' (v.map fmt6) (by simpa using hv) hnosep]

/-! ### The claims -/

/-- C1: for every vector `v` (components modelled as exact rationals, see the
header), decoding the encoding of `v` — `parseVectorString` applied to
`vectorToString v` — yields a vector of the same length as `v` whose every
component equals the corresponding component of `v` within `1e-6` absolute
tolerance. -/
theorem C1_decode_encode_roundtrip (v : List ℚ) :
    (parseVectorString (vectorToString v)).length = v.length ∧
    List.Forall₂ (fun a b => |b - a| ≤ 1 / 1000000) v
      (parseVectorString (vectorToString v)) := by
  rw [parseVectorString_vectorToString]
  refine ⟨by simp, ?_⟩
  rw [List.forall₂_map_right_iff, List.forall₂_same]
  intro x _
  exact round6_tolerance x

/-- C2: decode strips the enclosing brackets, returns the empty vector on an
empty interior, otherwise splits the interior on commas, trims whitespace per
token, parses each token and maps a token that fails to parse to `0` instead
of erroring, so the result length always equals the token count; in
particular `"[]"`, `"[1.000000,2.000000]"` and `"[1.0,bad,3.0]"` decode to
`[]`, `[1, 2]` and `[1.0, 0.0, 3.0]`. -/
theorem C2_decode_lenient (s : List Char) :
    parseVectorString "[]".data = [] ∧
    parseVectorString "[1.000000,2.000000]".data = [1, 2] ∧
    parseVectorString "[1.0,bad,3.0]".data = [1, 0, 3] ∧
    (parseVectorString s).length =
      (if goTrim s ['[', ']'] = [] then 0
       else (goSplitChar (goTrim s ['[', ']']) ',').length) := by
  refine ⟨by decide, by decide, by decide, ?_⟩
  by_cases h : goTrim s ['[', ']'] = [] <;> simp [parseVectorString, h]

/-- C10: decode is total — the model is a total function, mirroring that
every `strconv.ParseFloat` failure is absorbed by the `err == nil` guard and
no other operation in `parseVectorString` can fail — and on every input the
result length equals the number of comma-separated segments of the
bracket-trimmed interior (zero when the interior is empty); inputs without
brackets, with repeated brackets, or with only unparseable tokens are
exercised concretely. -/
theorem C10_decode_total (s : List Char) :
    (parseVectorString s).length =
      (if goTrim s ['[', ']'] = [] then 0
       else (goSplitChar (goTrim s ['[', ']']) ',').length) ∧
    parseVectorString "1.0,bad".data = [1, 0] ∧
    parseVectorString "[[1]]".data = [1] ∧
    parseVectorString "bad".data = [0] ∧
    parseVectorString "".data = [] := by
  refine ⟨?_, by decide, by decide, by decide, by decide⟩
  by_cases h : goTrim s ['[', ']'] = [] <;> simp [parseVectorString, h]

theorem vectorToString_char_class (v : List ℚ) :
    ∀ c ∈ vectorToString v,
      c = '[' ∨ c = ']' ∨ c = ',' ∨ c = '-' ∨ c = '.' ∨ c.isDigit = true := by
  intro c hc
  rcases List.mem_cons.mp hc with rfl | hc2
  · exact Or.inl rfl
  rcases List.mem_append.mp hc2 with h | h
  · have hparts : ∀ p ∈ v.map fmt6, ∃ x, p = fmt6 x := by
      intro p hp
      obtain ⟨x, _, rfl⟩ := List.mem_map.mp hp
      exact ⟨x, rfl⟩
    rcases goJoin_fmt6_class (v.map fmt6) hparts c h with h1 | h1 | h1 | h1
    · exact Or.inr (Or.inr (Or.inl h1))
    · exact Or.inr (Or.inr (Or.inr (Or.inl h1)))
    · exact Or.inr (Or.inr (Or.inr (Or.inr (Or.inl h1))))
    · exact Or.inr (Or.inr (Or.inr (Or.inr (Or.inr h1))))
  · simp at h
    subst h
    exact Or.inr (Or.inl rfl)

/-- C8: `vectorToString` produces exactly the bracketed form: splitting the
bracket-trimmed output on commas recovers one token per component in the
original order with no trailing delimiter (`[[]]`, i.e. a single empty
token, only for the empty vector, whose encoding is the literal `"[]"`);
every token is fixed-point with exactly six fractional digits and an
optional minus sign; every character is a bracket, comma, sign, point or
digit — hence no scientific notation; and the string contains no whitespace
at all, in particular none surrounding it. -/
theorem C8_encode_format (v : List ℚ) :
    vectorToString [] = "[]".data ∧
    goSplitChar (goTrim (vectorToString v) ['[', ']']) ','
      = (if v = [] then [[]] else v.map fmt6) ∧
    (∀ q : ℚ, fixed6Token (fmt6 q) = true) ∧
    (vectorToString v).all
      (fun c => c == '[' || c == ']' || c == ',' || c == '-' || c == '.' || c.isDigit)
      = true ∧
    (vectorToString v).all (fun c => !(isSpaceChar c)) = true ∧
    goTrimSpace (vectorToString v) = vectorToString v := by
  have hclass := vectorToString_char_class v
  have hnospace : ∀ c ∈ vectorToString v, isSpaceChar c = false := by
    intro c hc
    rcases hclass c hc with h | h | h | h | h | h
    · subst h; decide
    · subst h; decide
    · subst h; decide
    · subst h; decide
    · subst h; decide
    · exact isDigit_not_space h
  refine ⟨by decide, ?_, fixed6Token_fmt6, ?_, ?_, ?_⟩
  · by_cases hv : v = []
    · subst hv
      rw [if_pos rfl]
      decide
    · rw [goSplit_goTrim_vectorToString v hv, if_neg hv]
  · rw [List.all_eq_true]
    intro c hc
    rcases hclass c hc with h | h | h | h | h | h <;> simp [h]
  · rw [List.all_eq_true]
    intro c hc
    simp [hnospace c hc]
  · exact trimBy_eq_self _ hnospace

/-- C7: endpoint resolution is a strict three-tier fallback: a non-empty
`OLLAMA_URL` wins regardless of the container marker; otherwise the
`DOCKER_CONTAINER` marker selects the container-gateway default; otherwise
the local default is used. -/
theorem C7_endpoint_resolution (url : List Char) (docker : Bool) :
    (url ≠ [] → getOllamaURL url docker = url) ∧
    getOllamaURL [] true = "http://host.docker.internal:11434".data ∧
    getOllamaURL [] false = "http://localhost:11434".data := by
  refine ⟨fun h => ?_, by decide, by decide⟩
  simp [getOllamaURL, h]

/-- Witness for C7: a concrete override beats the container marker. -/
theorem C7_endpoint_resolution_witness :
    "http://x:1".data ≠ [] ∧ getOllamaURL "http://x:1".data true = "http://x:1".data :=
  ⟨by decide, (C7_endpoint_resolution "http://x:1".data true).1 (by decide)⟩

/-- C3: if the embedding step of ingestion fails in any way (request
serialization failure, transport failure, body-read failure, non-200
provider status, or malformed provider response body), `CreateDocument`
returns an error and issues zero write calls to storage, so no document is
ever persisted with a zero or placeholder embedding. -/
theorem C3_embed_failure_no_write (w : CreateWorld) (doc : Document)
    (h : embedFailed w = true) :
    (CreateDocument w doc).err ≠ none ∧ (CreateDocument w doc).writes = [] := by
  unfold CreateDocument
  by_cases hm : w.marshalOk = false
  · simp [hm]
  · have hm2 : w.marshalOk = true := by
      cases hmm : w.marshalOk
      · exact absurd hmm hm
      · rfl
    rw [if_neg hm]
    unfold embedFailed at h
    rw [hm2] at h
    simp only [Bool.not_true, Bool.false_or] at h
    cases he : w.embed with
    | connError => simp
    | readError => simp
    | badBody s => by_cases h200 : s ≠ 200 <;> simp [h200]
    | okBody s emb =>
        rw [he] at h
        simp only [bne_iff_ne, ne_eq] at h
        simp [h]

/-- Witness for C3: the provider answers HTTP 500, the call errors, and no
write is issued. -/
theorem C3_embed_failure_no_write_witness :
    embedFailed ⟨true, EmbedOutcome.okBody 500 [mkRat 1 10], Except.ok (1, 1)⟩ = true ∧
    ((CreateDocument ⟨true, EmbedOutcome.okBody 500 [mkRat 1 10], Except.ok (1, 1)⟩
        ⟨0, "hello".data, none, none, [], 0⟩).err ≠ none ∧
      (CreateDocument ⟨true, EmbedOutcome.okBody 500 [mkRat 1 10], Except.ok (1, 1)⟩
        ⟨0, "hello".data, none, none, [], 0⟩).writes = []) :=
  ⟨by decide, C3_embed_failure_no_write _ _ (by decide)⟩

/-- C4 as stated is false at this input: the embedding call succeeds, the
insert fails, `CreateDocument` returns the persistence error — and the
document object HAS been mutated, because `doc.Embedding` is overwritten
(repository.go line 72) before the insert runs. -/
theorem C4_counterexample :
    (CreateDocument ⟨true, EmbedOutcome.okBody 200 [mkRat 1 2], Except.error ()⟩
        ⟨0, "hello".data, none, none, [], 0⟩).err = some CreateError.dbError ∧
    (CreateDocument ⟨true, EmbedOutcome.okBody 200 [mkRat 1 2], Except.error ()⟩
        ⟨0, "hello".data, none, none, [], 0⟩).doc ≠ ⟨0, "hello".data, none, none, [], 0⟩ := by
  decide

/-- C4 amended: when the insert fails, `CreateDocument` returns the
persistence error, the store-assigned fields `ID` and `CreatedAt` and the
caller-supplied `Content`/`MediaType`/`FileName` are unchanged, and exactly
one insert was attempted — but the `Embedding` field has already been
overwritten with the fetched embedding before the insert. -/
theorem C4_db_failure_behavior (w : CreateWorld) (doc : Document) (emb : List ℚ)
    (hm : w.marshalOk = true) (he : w.embed = EmbedOutcome.okBody 200 emb)
    (hi : w.insert = Except.error ()) :
    (CreateDocument w doc).err = some CreateError.dbError ∧
    (CreateDocument w doc).doc.ID = doc.ID ∧
    (CreateDocument w doc).doc.CreatedAt = doc.CreatedAt ∧
    (CreateDocument w doc).doc.Content = doc.Content ∧
    (CreateDocument w doc).doc.MediaType = doc.MediaType ∧
    (CreateDocument w doc).doc.FileName = doc.FileName ∧
    (CreateDocument w doc).doc.Embedding = emb ∧
    (CreateDocument w doc).writes
      = [⟨doc.Content, doc.MediaType, doc.FileName, vectorToString emb⟩] := by
  simp [CreateDocument, hm, he, hi]

/-- Witness for the amended C4 at a concrete world and document. -/
theorem C4_db_failure_behavior_witness :
    (⟨true, EmbedOutcome.okBody 200 [mkRat 1 2], Except.error ()⟩
        : CreateWorld).marshalOk = true ∧
    (⟨true, EmbedOutcome.okBody 200 [mkRat 1 2], Except.error ()⟩
        : CreateWorld).embed = EmbedOutcome.okBody 200 [mkRat 1 2] ∧
    (⟨true, EmbedOutcome.okBody 200 [mkRat 1 2], Except.error ()⟩
        : CreateWorld).insert = Except.error () ∧
    ((CreateDocument ⟨true, EmbedOutcome.okBody 200 [mkRat 1 2], Except.error ()⟩
        ⟨0, "hello".data, none, none, [], 0⟩).err = some CreateError.dbError ∧
      (CreateDocument ⟨true, EmbedOutcome.okBody 200 [mkRat 1 2], Except.error ()⟩
        ⟨0, "hello".data, none, none, [], 0⟩).doc.ID
        = (⟨0, "hello".data, none, none, [], 0⟩ : Document).ID ∧
      (CreateDocument ⟨true, EmbedOutcome.okBody 200 [mkRat 1 2], Except.error ()⟩
        ⟨0, "hello".data, none, none, [], 0⟩).doc.CreatedAt
        = (⟨0, "hello".data, none, none, [], 0⟩ : Document).CreatedAt ∧
      (CreateDocument ⟨true, EmbedOutcome.okBody 200 [mkRat 1 2], Except.error ()⟩
        ⟨0, "hello".data, none, none, [], 0⟩).doc.Content
        = (⟨0, "hello".data, none, none, [], 0⟩ : Document).Content ∧
      (CreateDocument ⟨true, EmbedOutcome.okBody 200 [mkRat 1 2], Except.error ()⟩
        ⟨0, "hello".data, none, none, [], 0⟩).doc.MediaType
        = (⟨0, "hello".data, none, none, [], 0⟩ : Document).MediaType ∧
      (CreateDocument ⟨true, EmbedOutcome.okBody 200 [mkRat 1 2], Except.error ()⟩
        ⟨0, "hello".data, none, none, [], 0⟩).doc.FileName
        = (⟨0, "hello".data, none, none, [], 0⟩ : Document).FileName ∧
      (CreateDocument ⟨true, EmbedOutcome.okBody 200 [mkRat 1 2], Except.error ()⟩
        ⟨0, "hello".data, none, none, [], 0⟩).doc.Embedding = [mkRat 1 2] ∧
      (CreateDocument ⟨true, EmbedOutcome.okBody 200 [mkRat 1 2], Except.error ()⟩
        ⟨0, "hello".data, none, none, [], 0⟩).writes
        = [⟨"hello".data, none, none, vectorToString [mkRat 1 2]⟩]) :=
  ⟨rfl, rfl, rfl, C4_db_failure_behavior _ _ [mkRat 1 2] rfl rfl rfl⟩

/-- C9: on a fully successful ingestion — provider answers 200 with
embedding `E`, the insert returns `(id, t)` — `CreateDocument` returns no
error and the document ends with `ID = id`, `CreatedAt = t` and
`Embedding = E`, with exactly one insert issued carrying the encoded
embedding. -/
theorem C9_success_behavior (w : CreateWorld) (doc : Document) (emb : List ℚ) (i t : Int)
    (hm : w.marshalOk = true) (he : w.embed = EmbedOutcome.okBody 200 emb)
    (hi : w.insert = Except.ok (i, t)) :
    (CreateDocument w doc).err = none ∧
    (CreateDocument w doc).doc.ID = i ∧
    (CreateDocument w doc).doc.CreatedAt = t ∧
    (CreateDocument w doc).doc.Embedding = emb ∧
    (CreateDocument w doc).doc.Content = doc.Content ∧
    (CreateDocument w doc).doc.MediaType = doc.MediaType ∧
    (CreateDocument w doc).doc.FileName = doc.FileName ∧
    (CreateDocument w doc).writes
      = [⟨doc.Content, doc.MediaType, doc.FileName, vectorToString emb⟩] := by
  simp [CreateDocument, hm, he, hi]

/-- Witness for C9: embedding `[0.1, 0.2, 0.3]`, store echoing id 7 and
timestamp 1234. -/
theorem C9_success_behavior_witness :
    (⟨true, EmbedOutcome.okBody 200 [mkRat 1 10, mkRat 1 5, mkRat 3 10], Except.ok (7, 1234)⟩
        : CreateWorld).marshalOk = true ∧
    (⟨true, EmbedOutcome.okBody 200 [mkRat 1 10, mkRat 1 5, mkRat 3 10], Except.ok (7, 1234)⟩
        : CreateWorld).embed
      = EmbedOutcome.okBody 200 [mkRat 1 10, mkRat 1 5, mkRat 3 10] ∧
    (⟨true, EmbedOutcome.okBody 200 [mkRat 1 10, mkRat 1 5, mkRat 3 10], Except.ok (7, 1234)⟩
        : CreateWorld).insert = Except.ok (7, 1234) ∧
    ((CreateDocument
        ⟨true, EmbedOutcome.okBody 200 [mkRat 1 10, mkRat 1 5, mkRat 3 10], Except.ok (7, 1234)⟩
        ⟨0, "hello".data, none, none, [], 0⟩).err = none ∧
      (CreateDocument
        ⟨true, EmbedOutcome.okBody 200 [mkRat 1 10, mkRat 1 5, mkRat 3 10], Except.ok (7, 1234)⟩
        ⟨0, "hello".data, none, none, [], 0⟩).doc.ID = 7 ∧
      (CreateDocument
        ⟨true, EmbedOutcome.okBody 200 [mkRat 1 10, mkRat 1 5, mkRat 3 10], Except.ok (7, 1234)⟩
        ⟨0, "hello".data, none, none, [], 0⟩).doc.CreatedAt = 1234 ∧
      (CreateDocument
        ⟨true, EmbedOutcome.okBody 200 [mkRat 1 10, mkRat 1 5, mkRat 3 10], Except.ok (7, 1234)⟩
        ⟨0, "hello".data, none, none, [], 0⟩).doc.Embedding
        = [mkRat 1 10, mkRat 1 5, mkRat 3 10] ∧
      (CreateDocument
        ⟨true, EmbedOutcome.okBody 200 [mkRat 1 10, mkRat 1 5, mkRat 3 10], Except.ok (7, 1234)⟩
        ⟨0, "hello".data, none, none, [], 0⟩).doc.Content
        = (⟨0, "hello".data, none, none, [], 0⟩ : Document).Content ∧
      (CreateDocument
        ⟨true, EmbedOutcome.okBody 200 [mkRat 1 10, mkRat 1 5, mkRat 3 10], Except.ok (7, 1234)⟩
        ⟨0, "hello".data, none, none, [], 0⟩).doc.MediaType
        = (⟨0, "hello".data, none, none, [], 0⟩ : Document).MediaType ∧
      (CreateDocument
        ⟨true, EmbedOutcome.okBody 200 [mkRat 1 10, mkRat 1 5, mkRat 3 10], Except.ok (7, 1234)⟩
        ⟨0, "hello".data, none, none, [], 0⟩).doc.FileName
        = (⟨0, "hello".data, none, none, [], 0⟩ : Document).FileName ∧
      (CreateDocument
        ⟨true, EmbedOutcome.okBody 200 [mkRat 1 10, mkRat 1 5, mkRat 3 10], Except.ok (7, 1234)⟩
        ⟨0, "hello".data, none, none, [], 0⟩).writes
        = [⟨"hello".data, none, none,
            vectorToString [mkRat 1 10, mkRat 1 5, mkRat 3 10]⟩]) :=
  ⟨rfl, rfl, rfl,
    C9_success_behavior _ _ [mkRat 1 10, mkRat 1 5, mkRat 3 10] 7 1234 rfl rfl rfl⟩

/-- C6: a row whose `rows.Scan` fails is skipped while iteration continues
over the remaining rows; the call returns the successfully scanned rows in
their original relative order rather than an error; with a result set of 7
rows where exactly row 3 fails to scan, exactly 6 documents are returned,
preserving the relative order of the other rows. -/
theorem C6_scan_skip (rows : List (Except Unit ScannedRow))
    (r1 r2 r4 r5 r6 r7 : ScannedRow) :
    processRows rows = (rows.filterMap Except.toOption).map rowToDoc ∧
    SearchSimilarDocuments
        (fun _ _ => Except.ok [Except.ok r1, Except.ok r2, Except.error (), Except.ok r4,
          Except.ok r5, Except.ok r6, Except.ok r7]) [] 5
      = Except.ok [rowToDoc r1, rowToDoc r2, rowToDoc r4, rowToDoc r5, rowToDoc r6,
          rowToDoc r7] ∧
    [rowToDoc r1, rowToDoc r2, rowToDoc r4, rowToDoc r5, rowToDoc r6, rowToDoc r7].length
      = 6 := by
  refine ⟨processRows_filterMap rows, ?_, rfl⟩
  simp [SearchSimilarDocuments, processRows]

/-- Concrete stored row for the C5 evaluation. -/
def row0 : StoredRow := ⟨1, "a".data, none, none, "[0.000000,1.000000]".data, 0⟩

/-- Concrete distance assignment for the C5 evaluation: the pgvector
operator `<=>` is abstract in the model, so any metric exercises the shape
of the query; `row0` sits at distance 1/4 from the query vector. -/
def dist0 : StoredRow → ℚ := fun _ => mkRat 1 4

/-- C5 (supporting theorem for the divergence): the SQL result set is
ordered by ascending distance, holds at most `limit` rows, and every row is
annotated with `similarity = 1 − distance`; but `SearchSimilarDocuments`
drops the scanned similarity (it is only logged) and returns bare
`Document`s.  At the failing input the single query row carries similarity
`3/4`, while the function's return value is a one-element document list in
which no similarity appears. -/
theorem C5_search_shape_and_dropped_similarity :
    (∀ (table : List StoredRow) (dist : StoredRow → ℚ) (lim : Nat),
      (runSearchQuery table dist lim).length ≤ lim) ∧
    (∀ (table : List StoredRow) (dist : StoredRow → ℚ) (lim : Nat),
      List.Pairwise (fun p q => dist p.1 ≤ dist q.1) (runSearchQuery table dist lim)) ∧
    (∀ (table : List StoredRow) (dist : StoredRow → ℚ) (lim : Nat),
      List.Forall (fun p => p.2 = 1 - dist p.1) (runSearchQuery table dist lim)) ∧
    runSearchQuery [row0] dist0 5 = [(row0, mkRat 3 4)] ∧
    SearchSimilarDocuments (fun _ _ => dbOfTable [row0] dist0 5) [1, 0] 5
      = Except.ok [(⟨1, "a".data, none, none, [0, 1], 0⟩ : Document)] := by
  have hsim : (1 : ℚ) - mkRat 1 4 = mkRat 3 4 := by norm_num [Rat.mkRat_eq_div]
  have hdec : parseVectorString "[0.000000,1.000000]".data = [0, 1] := by decide
  refine ⟨?_, ?_, ?_, ?_, ?_⟩
  · intro table dist lim
    calc (runSearchQuery table dist lim).length
        = ((orderByDist dist table).take lim).length := by
          simp [runSearchQuery]
    _ ≤ lim := List.length_take_le _ _
  · intro table dist lim
    show List.Pairwise _ (((orderByDist dist table).take lim).map _)
    rw [List.pairwise_map]
    exact ((orderByDist_sorted dist table).sublist (List.take_sublist _ _))
  · intro table dist lim
    rw [List.forall_iff_forall_mem]
    intro p hp
    obtain ⟨r, _, rfl⟩ := List.mem_map.mp hp
    rfl
  · show ((orderByDist dist0 [row0]).take 5).map _ = _
    simp [orderByDist, insertAsc, dist0, hsim]
  · simp [SearchSimilarDocuments, dbOfTable, runSearchQuery, orderByDist, insertAsc,
      processRows, rowToDoc, row0, hdec]
